import Mathlib

/-!
Verification of the einx notation-to-execution compiler core
(`src/einx/op/arange.py`, `src/einx/op/vmap.py`).

The repository sources contain only the two operation drivers; the solved
expression model (`einx.expr.stage3`), the flatten/unflatten transformer
(`einx.op.util`), the equation solver (`einx.expr.solve`) and the backend
capability interface live outside `src/` and are therefore modelled from the
specification (spec sections 3, 4.2, 4.4, 4.5 and 6).  Every definition below
states in its doc comment whether it is translated from the source files or
modelled from the spec.
-/

namespace Einx

/-- A flat (elementary) axis of a solved expression: resolved name, resolved
size, and the marker flag (einx `stage3.Axis` together with `is_marked`).
Modelled from the spec (section 3, Axis / Marker). -/
structure FlatAxis where
  name : Option String
  value : Nat
  marked : Bool
deriving DecidableEq

/- Solved expression trees (einx `stage3`), modelled from the spec
(section 3): an `SExpr` is an axis, a composition (grouping, size = product),
a concatenation (stacking, size = sum), or a marker wrapper.  `SList` is the
sequence of children; a root expression is a `List SExpr`, one element per
top-level axis position. -/
mutual
inductive SExpr where
  | axis : Option String → Nat → SExpr
  | comp : SList → SExpr
  | concat : SList → SExpr
  | marker : SExpr → SExpr
inductive SList where
  | nil : SList
  | cons : SExpr → SList → SList
end

/- Resolved size of a solved expression (spec section 3, invariant 2):
a composition's size is the product of its children's sizes, a
concatenation's size is the sum, a marker is size-transparent. -/
mutual
def sizeE : SExpr → Nat
  | .axis _ v => v
  | .comp cs => prodL cs
  | .concat cs => sumL cs
  | .marker e => sizeE e
def prodL : SList → Nat
  | .nil => 1
  | .cons e l => sizeE e * prodL l
def sumL : SList → Nat
  | .nil => 0
  | .cons e l => sizeE e + sumL l
end

/-- Children of an `SList` as a `List`. -/
def SList.toList : SList → List SExpr
  | .nil => []
  | .cons e l => e :: l.toList

/-- Build an `SList` from a `List`. -/
def SList.ofList : List SExpr → SList
  | [] => .nil
  | e :: l => .cons e (SList.ofList l)

/- Leaf axes of a solved expression in depth-first order, carrying the marker
flag of any enclosing `marker` node; `none` when the expression contains a
concatenation (a concatenation has no single sequence of leaf axes — it must
be split first).  Modelled from the spec (section 4.4: a flat expression has
only a single level of axis children). -/
mutual
def leavesE (m : Bool) : SExpr → Option (List FlatAxis)
  | .axis n v => some [⟨n, v, m⟩]
  | .comp cs => leavesL m cs
  | .concat _ => none
  | .marker e => leavesE true e
def leavesL (m : Bool) : SList → Option (List FlatAxis)
  | .nil => some []
  | .cons e l =>
    match leavesE m e, leavesL m l with
    | some a, some b => some (a ++ b)
    | _, _ => none
end

/-- Leaf axes of a root expression (list of top-level items). -/
def leavesRoot : List SExpr → Option (List FlatAxis)
  | [] => some []
  | e :: l =>
    match leavesE false e, leavesRoot l with
    | some a, some b => some (a ++ b)
    | _, _ => none

/-- Structured shape of a root expression: one dimension per top-level item
(spec section 6, result contract). -/
def rootShape (items : List SExpr) : List Nat :=
  items.map sizeE

/- ## Tensors

Tensors are modelled as a shape together with a value function on
multi-indices; the element order of a tensor is its row-major data listing
(`Tensor.toData`).  Modelled from the spec (section 1: the core only
determines what operations to request; tensor contents flow through
reshape/split/concatenate). -/

/-- Row-major linear index of a multi-index in a shape. -/
def rank : List Nat → List Nat → Nat
  | [], _ => 0
  | _ :: _, [] => 0
  | _ :: ss, i :: is => i * ss.prod + rank ss is

/-- Multi-index of a row-major linear index in a shape. -/
def unrank : List Nat → Nat → List Nat
  | [], _ => []
  | _ :: ss, n => n / ss.prod :: unrank ss (n % ss.prod)

/-- Does the multi-index lie inside the shape? -/
def validIdx : List Nat → List Nat → Bool
  | [], [] => true
  | s :: ss, i :: is => i < s && validIdx ss is
  | _, _ => false

/-- A tensor: a shape and a value for every multi-index. -/
structure Tensor where
  shape : List Nat
  val : List Nat → Int

/-- The row-major element listing of a tensor: its shape and this listing
together determine the tensor completely. -/
def Tensor.toData (t : Tensor) : List Int :=
  (List.range t.shape.prod).map (fun n => t.val (unrank t.shape n))

/-- Backend reshape (spec section 6): same row-major data, new shape. -/
def reshape (t : Tensor) (s : List Nat) : Tensor :=
  ⟨s, fun idx => t.val (unrank t.shape (rank s idx))⟩

theorem validIdx_length {s idx : List Nat} (h : validIdx s idx = true) :
    idx.length = s.length := by
  induction s generalizing idx with
  | nil => cases idx with
    | nil => rfl
    | cons i is => simp [validIdx] at h
  | cons a ss ih => cases idx with
    | nil => simp [validIdx] at h
    | cons i is =>
      simp only [validIdx, Bool.and_eq_true] at h
      simp [ih h.2]

theorem rank_lt {s idx : List Nat} (h : validIdx s idx = true) :
    rank s idx < s.prod := by
  induction s generalizing idx with
  | nil => cases idx with
    | nil => simp [rank]
    | cons i is => simp [validIdx] at h
  | cons a ss ih => cases idx with
    | nil => simp [validIdx] at h
    | cons i is =>
      simp only [validIdx, Bool.and_eq_true, decide_eq_true_eq] at h
      have hr := ih h.2
      have hprodpos : 0 < ss.prod := Nat.pos_of_ne_zero (fun hz => by simp [hz] at hr)
      calc rank (a :: ss) (i :: is) = i * ss.prod + rank ss is := rfl
        _ < i * ss.prod + ss.prod := by omega
        _ = (i + 1) * ss.prod := by ring
        _ ≤ a * ss.prod := Nat.mul_le_mul_right _ h.1
        _ = (a :: ss).prod := by simp [List.prod_cons]

theorem unrank_rank {s idx : List Nat} (h : validIdx s idx = true) :
    unrank s (rank s idx) = idx := by
  induction s generalizing idx with
  | nil => cases idx with
    | nil => rfl
    | cons i is => simp [validIdx] at h
  | cons a ss ih => cases idx with
    | nil => simp [validIdx] at h
    | cons i is =>
      simp only [validIdx, Bool.and_eq_true, decide_eq_true_eq] at h
      have hr := rank_lt h.2
      have hprodpos : 0 < ss.prod := Nat.pos_of_ne_zero (fun hz => by simp [hz] at hr)
      have hcomm : i * ss.prod + rank ss is = rank ss is + ss.prod * i := by ring
      have hdiv : (i * ss.prod + rank ss is) / ss.prod = i := by
        rw [hcomm, Nat.add_mul_div_left _ _ hprodpos, Nat.div_eq_of_lt hr, Nat.zero_add]
      have hmod : (i * ss.prod + rank ss is) % ss.prod = rank ss is := by
        rw [hcomm, Nat.add_mul_mod_self_left, Nat.mod_eq_of_lt hr]
      simp [unrank, rank, hdiv, hmod, ih h.2]

theorem rank_unrank {s : List Nat} {n : Nat} (h : n < s.prod) :
    rank s (unrank s n) = n := by
  induction s generalizing n with
  | nil => simp [List.prod_nil] at h; simp [rank, h]
  | cons a ss ih =>
    have hprodpos : 0 < ss.prod := by
      rcases Nat.eq_zero_or_pos ss.prod with hz | hp
      · simp [List.prod_cons, hz] at h
      · exact hp
    have hmod : n % ss.prod < ss.prod := Nat.mod_lt _ hprodpos
    simp only [unrank, rank, ih hmod]
    calc n / ss.prod * ss.prod + n % ss.prod
        = ss.prod * (n / ss.prod) + n % ss.prod := by ring
      _ = n := Nat.div_add_mod n ss.prod

theorem validIdx_unrank {s : List Nat} {n : Nat} (h : n < s.prod) :
    validIdx s (unrank s n) = true := by
  induction s generalizing n with
  | nil => simp [unrank, validIdx]
  | cons a ss ih =>
    have hprodpos : 0 < ss.prod := by
      rcases Nat.eq_zero_or_pos ss.prod with hz | hp
      · simp [List.prod_cons, hz] at h
      · exact hp
    have hdiv : n / ss.prod < a := by
      rw [Nat.div_lt_iff_lt_mul hprodpos]
      calc n < (a :: ss).prod := h
        _ = a * ss.prod := by simp [List.prod_cons]
    simp only [unrank, validIdx, Bool.and_eq_true, decide_eq_true_eq]
    exact ⟨hdiv, ih (Nat.mod_lt _ hprodpos)⟩

theorem toData_eq_of_pointwise {t u : Tensor} (hs : t.shape = u.shape)
    (h : ∀ idx, validIdx t.shape idx = true → t.val idx = u.val idx) :
    t.toData = u.toData := by
  unfold Tensor.toData
  rw [← hs]
  refine List.map_congr_left (fun n hn => ?_)
  rw [List.mem_range] at hn
  exact h _ (validIdx_unrank hn)

theorem pointwise_of_toData_eq {t u : Tensor} (hs : t.shape = u.shape)
    (h : t.toData = u.toData) {idx : List Nat}
    (hv : validIdx t.shape idx = true) : t.val idx = u.val idx := by
  unfold Tensor.toData at h
  rw [← hs] at h
  rw [List.map_eq_map_iff] at h
  have := h (rank t.shape idx) (by rw [List.mem_range]; exact rank_lt hv)
  rwa [unrank_rank hv] at this

theorem toData_reshape (t : Tensor) (s : List Nat)
    (h : s.prod = t.shape.prod) : (reshape t s).toData = t.toData := by
  unfold Tensor.toData reshape
  simp only [h]
  refine List.map_congr_left (fun n hn => ?_)
  rw [List.mem_range] at hn
  rw [rank_unrank (by omega : n < s.prod)]

theorem shape_reshape (t : Tensor) (s : List Nat) : (reshape t s).shape = s := rfl

/- ## Small list auxiliaries -/

theorem map_set_comm {α β : Type} (f : α → β) :
    ∀ (l : List α) (d : Nat) (c : α), (l.set d c).map f = (l.map f).set d (f c)
  | [], _, _ => rfl
  | _ :: l, 0, c => rfl
  | x :: l, d + 1, c => by simp [List.set, map_set_comm f l d c]

theorem getD_mem {α : Type} :
    ∀ (l : List α) (n : Nat) (d : α), n < l.length → l.getD n d ∈ l
  | [], n, d, h => by simp at h
  | x :: l, 0, d, _ => by simp
  | x :: l, n + 1, d, h => by
    rw [List.getD_cons_succ]
    exact List.mem_cons_of_mem x (getD_mem l n d (by simpa using h))

theorem set_getD_self {α : Type} :
    ∀ (l : List α) (n : Nat) (d : α), l.set n (l.getD n d) = l
  | [], _, _ => rfl
  | x :: l, 0, d => rfl
  | x :: l, n + 1, d => by
    rw [List.getD_cons_succ]
    show x :: l.set n (l.getD n d) = x :: l
    rw [set_getD_self l n d]

theorem getD_set_self {α : Type} :
    ∀ (l : List α) (n : Nat) (x d : α), n < l.length → (l.set n x).getD n d = x
  | [], n, x, d, h => by simp at h
  | a :: l, 0, x, d, _ => rfl
  | a :: l, n + 1, x, d, h => by
    simpa [List.set, List.getD_cons_succ] using getD_set_self l n x d (by simpa using h)

theorem validIdx_getD {s idx : List Nat} (h : validIdx s idx = true) :
    ∀ d, d < s.length → idx.getD d 0 < s.getD d 0 := by
  induction s generalizing idx with
  | nil => intro d hd; simp at hd
  | cons a ss ih =>
    cases idx with
    | nil => simp [validIdx] at h
    | cons i is =>
      simp only [validIdx, Bool.and_eq_true, decide_eq_true_eq] at h
      intro d hd
      cases d with
      | zero => simpa using h.1
      | succ d => simpa [List.getD_cons_succ] using ih h.2 d (by simpa using hd)

theorem validIdx_set_set {s idx : List Nat} (h : validIdx s idx = true) :
    ∀ d j k, j < k → validIdx (s.set d k) (idx.set d j) = true := by
  induction s generalizing idx with
  | nil =>
    cases idx with
    | nil => intro d j k _; simp [List.set]; rfl
    | cons i is => simp [validIdx] at h
  | cons a ss ih =>
    cases idx with
    | nil => simp [validIdx] at h
    | cons i is =>
      simp only [validIdx, Bool.and_eq_true, decide_eq_true_eq] at h
      intro d j k hjk
      cases d with
      | zero => simp [List.set, validIdx, hjk, h.2]
      | succ d => simp [List.set, validIdx, h.1, ih h.2 d j k hjk]

theorem validIdx_set_lt {s idx : List Nat} (h : validIdx s idx = true) :
    ∀ d k, idx.getD d 0 < k → validIdx (s.set d k) idx = true := by
  intro d k hk
  have := validIdx_set_set h d (idx.getD d 0) k hk
  rwa [set_getD_self] at this

/- ## Flatten / Unflatten (spec section 4.4)

Modelled from the spec: `flatten` turns a structured root expression and a
conforming tensor into a list of (flat expression, tensor) pairs — a
composition is reshaped away (size-preserving split of a dimension, row-major
data unchanged) and a concatenation splits the tensor along the concatenated
dimension, one part per child.  `unflatten` reverses this, guided by the
target expression: reshape for compositions, backend concatenation for
concatenations.  The implementation (`einx/op/util.py`) is not part of
`src/`.  Concatenations nested strictly inside a composition or marker are
not representable as a single flat reshape; there `flatten` is undefined
(`none`).  Recursion is by fuel; `flatten`/`unflatten` supply the same
sufficient fuel. -/

/- Number of nodes of an expression, used as recursion fuel. -/
mutual
def nodesE : SExpr → Nat
  | .axis _ _ => 1
  | .comp cs => 1 + nodesL cs
  | .concat cs => 1 + nodesL cs
  | .marker e => 1 + nodesE e
def nodesL : SList → Nat
  | .nil => 0
  | .cons e l => nodesE e + nodesL l
end

/-- Fuel bound for a root expression. -/
def nodesRoot (items : List SExpr) : Nat :=
  (items.map nodesE).sum

/-- Index of the first top-level item containing a concatenation (an item
whose leaf-axis listing is undefined). -/
def firstConcatIdx : List SExpr → Option Nat
  | [] => none
  | e :: l =>
    if (leavesE false e).isNone then some 0
    else (firstConcatIdx l).map (· + 1)

/-- Part of a tensor along dimension `d`: offset `o`, extent `p`
(spec section 4.4, concatenation split). -/
def slicePart (t : Tensor) (d o p : Nat) : Tensor :=
  ⟨t.shape.set d p, fun idx => t.val (idx.set d (idx.getD d 0 + o))⟩

/-- Concatenation of two tensors along dimension `d`, where the first part
has extent `k` (spec section 6, backend concatenation). -/
def concat2 (d k : Nat) (t1 t2 : Tensor) (s : List Nat) : Tensor :=
  ⟨s, fun idx =>
    if idx.getD d 0 < k then t1.val idx
    else t2.val (idx.set d (idx.getD d 0 - k))⟩

/-- Flatten one root expression with its tensor into flat
(expression, tensor) pairs.  Modelled from the spec (section 4.4). -/
def flattenF : Nat → List SExpr → Tensor → Option (List (List FlatAxis × Tensor))
  | 0, _, _ => none
  | fuel + 1, items, t =>
    match firstConcatIdx items with
    | none =>
      match leavesRoot items with
      | some fs => some [(fs, reshape t (fs.map FlatAxis.value))]
      | none => none
    | some d =>
      match items.getD d (.axis none 0) with
      | .concat .nil => some []
      | .concat (.cons c cs) =>
        match flattenF fuel (items.set d c) (slicePart t d 0 (sizeE c)),
              flattenF fuel (items.set d (.concat cs))
                (slicePart t d (sizeE c) (sumL cs)) with
        | some a, some b => some (a ++ b)
        | _, _ => none
      | _ => none

/-- Unflatten a prefix of the flat (expression, tensor) pairs back into a
tensor for the structured target expression, returning the consumed suffix.
Modelled from the spec (section 4.4). -/
def unflattenF : Nat → List SExpr → List (List FlatAxis × Tensor) →
    Option (Tensor × List (List FlatAxis × Tensor))
  | 0, _, _ => none
  | fuel + 1, items, ps =>
    match firstConcatIdx items with
    | none =>
      match ps with
      | [] => none
      | (_, t) :: rest =>
        if t.shape.prod = (items.map sizeE).prod then
          some (reshape t (items.map sizeE), rest)
        else none
    | some d =>
      match items.getD d (.axis none 0) with
      | .concat .nil => some (⟨items.map sizeE, fun _ => 0⟩, ps)
      | .concat (.cons c cs) =>
        match unflattenF fuel (items.set d c) ps with
        | some (t1, ps1) =>
          match unflattenF fuel (items.set d (.concat cs)) ps1 with
          | some (t2, ps2) =>
            some (concat2 d (sizeE c) t1 t2 (items.map sizeE), ps2)
          | none => none
        | none => none
      | _ => none

/-- `util.flatten` for a single root expression. -/
def flatten (items : List SExpr) (t : Tensor) :
    Option (List (List FlatAxis × Tensor)) :=
  flattenF (nodesRoot items + 1) items t

/-- `util.unflatten` for a single target root expression. -/
def unflatten (items : List SExpr) (ps : List (List FlatAxis × Tensor)) :
    Option (Tensor × List (List FlatAxis × Tensor)) :=
  unflattenF (nodesRoot items + 1) items ps

/- The leaf axes of an expression multiply to its size (spec section 3,
invariant 2: composition size is the product of children). -/
mutual
theorem prodLeavesE : ∀ (m : Bool) (e : SExpr) (a : List FlatAxis),
    leavesE m e = some a → (a.map FlatAxis.value).prod = sizeE e
  | m, .axis n v, a, h => by
    simp only [leavesE, Option.some.injEq] at h
    subst h; simp [sizeE]
  | m, .comp cs, a, h => by
    simpa [sizeE] using prodLeavesL m cs a (by simpa [leavesE] using h)
  | m, .concat cs, a, h => by simp [leavesE] at h
  | m, .marker e, a, h => by
    simpa [sizeE] using prodLeavesE true e a (by simpa [leavesE] using h)
theorem prodLeavesL : ∀ (m : Bool) (l : SList) (a : List FlatAxis),
    leavesL m l = some a → (a.map FlatAxis.value).prod = prodL l
  | m, .nil, a, h => by
    simp only [leavesL, Option.some.injEq] at h
    subst h; simp [prodL]
  | m, .cons e l, a, h => by
    simp only [leavesL] at h
    cases he : leavesE m e with
    | none => rw [he] at h; simp at h
    | some x =>
      cases hl : leavesL m l with
      | none => rw [he, hl] at h; simp at h
      | some y =>
        rw [he, hl] at h
        simp only [Option.some.injEq] at h
        subst h
        simp [List.prod_append, prodLeavesE m e x he, prodLeavesL m l y hl, prodL]
end

theorem prodLeavesRoot : ∀ (items : List SExpr) (fs : List FlatAxis),
    leavesRoot items = some fs →
    (fs.map FlatAxis.value).prod = (items.map sizeE).prod
  | [], fs, h => by
    simp only [leavesRoot, Option.some.injEq] at h
    subst h; simp
  | e :: items, fs, h => by
    simp only [leavesRoot] at h
    cases he : leavesE false e with
    | none => rw [he] at h; simp at h
    | some x =>
      cases hl : leavesRoot items with
      | none => rw [he, hl] at h; simp at h
      | some y =>
        rw [he, hl] at h
        simp only [Option.some.injEq] at h
        subst h
        simp [List.prod_append, prodLeavesE false e x he, prodLeavesRoot items y hl]

/-- Round trip of flatten and unflatten (spec sections 4.4 and 8): whenever
flattening a structured expression with a conforming tensor succeeds,
unflattening the produced pairs with the same target expression consumes
exactly those pairs and reproduces the tensor's shape and row-major element
order.  Fuel-parametric; both directions run with the same fuel. -/
theorem flatten_unflatten_aux :
    ∀ (fuel : Nat) (items : List SExpr) (t : Tensor)
      (ps rest : List (List FlatAxis × Tensor)),
    flattenF fuel items t = some ps →
    t.shape = items.map sizeE →
    ∃ t2, unflattenF fuel items (ps ++ rest) = some (t2, rest) ∧
      t2.shape = t.shape ∧ t2.toData = t.toData := by
  intro fuel
  induction fuel with
  | zero => intro items t ps rest h _; simp [flattenF] at h
  | succ fuel ih =>
    intro items t ps rest hflat hshape
    rw [flattenF] at hflat
    rw [show ∀ its pp, unflattenF (fuel + 1) its pp =
      (match firstConcatIdx its with
      | none =>
        match pp with
        | [] => none
        | (_, t) :: rest =>
          if t.shape.prod = (its.map sizeE).prod then
            some (reshape t (its.map sizeE), rest)
          else none
      | some d =>
        match its.getD d (.axis none 0) with
        | .concat .nil => some (⟨its.map sizeE, fun _ => 0⟩, pp)
        | .concat (.cons c cs) =>
          match unflattenF fuel (its.set d c) pp with
          | some (t1, ps1) =>
            match unflattenF fuel (its.set d (.concat cs)) ps1 with
            | some (t2, ps2) =>
              some (concat2 d (sizeE c) t1 t2 (its.map sizeE), ps2)
            | none => none
          | none => none
        | _ => none) from fun _ _ => rfl]
    cases hfc : firstConcatIdx items with
    | none =>
      simp only [hfc] at hflat ⊢
      cases hlr : leavesRoot items with
      | none => rw [hlr] at hflat; simp at hflat
      | some fs =>
        rw [hlr] at hflat
        simp only [Option.some.injEq] at hflat
        subst hflat
        have hprod : (fs.map FlatAxis.value).prod = (items.map sizeE).prod :=
          prodLeavesRoot items fs hlr
        refine ⟨reshape (reshape t (fs.map FlatAxis.value)) (items.map sizeE),
          ?_, ?_, ?_⟩
        · simp only [List.cons_append, List.nil_append, shape_reshape]
          rw [if_pos hprod]
        · rw [shape_reshape, hshape]
        · rw [toData_reshape _ _ (by rw [shape_reshape]; exact hprod.symm),
            toData_reshape _ _ (by rw [hshape]; exact hprod)]
    | some d =>
      simp only [hfc] at hflat ⊢
      cases hitem : items.getD d (.axis none 0) with
      | axis n v => rw [hitem] at hflat; simp at hflat
      | comp cs => rw [hitem] at hflat; simp at hflat
      | marker e => rw [hitem] at hflat; simp at hflat
      | concat cs =>
        have hdlt : d < items.length := by
          by_contra hge
          rw [List.getD_eq_default _ _ (by omega)] at hitem
          cases hitem
        cases cs with
        | nil =>
          rw [hitem] at hflat
          simp only [Option.some.injEq] at hflat
          subst hflat
          simp only [hitem, List.nil_append]
          refine ⟨⟨items.map sizeE, fun _ => 0⟩, rfl, hshape.symm, ?_⟩
          have hzero : (0 : Nat) ∈ items.map sizeE := by
            have h1 : (items.map sizeE).getD d 0 = sizeE (items.getD d (.axis none 0)) := by
              have := List.getD_map (l := items) (d := SExpr.axis none 0) (n := d) sizeE
              simpa [sizeE] using this
            have h2 : (items.map sizeE).getD d 0 = 0 := by
              rw [h1, hitem]; rfl
            have := getD_mem (items.map sizeE) d 0 (by simpa using hdlt)
            rwa [h2] at this
          have hprod0 : (items.map sizeE).prod = 0 := List.prod_eq_zero hzero
          unfold Tensor.toData
          rw [hshape]
          simp [hprod0]
        | cons c cs =>
          simp only [hitem] at hflat
          cases hA : flattenF fuel (items.set d c) (slicePart t d 0 (sizeE c)) with
          | none => simp only [hA] at hflat; exact Option.noConfusion hflat
          | some a =>
            cases hB : flattenF fuel (items.set d (.concat cs))
                (slicePart t d (sizeE c) (sumL cs)) with
            | none => simp only [hA, hB] at hflat; exact Option.noConfusion hflat
            | some b =>
              simp only [hA, hB, Option.some.injEq] at hflat
              subst hflat
              have hshapeA : (slicePart t d 0 (sizeE c)).shape =
                  (items.set d c).map sizeE := by
                show t.shape.set d (sizeE c) = _
                rw [hshape, map_set_comm]
              have hshapeB : (slicePart t d (sizeE c) (sumL cs)).shape =
                  (items.set d (.concat cs)).map sizeE := by
                show t.shape.set d (sumL cs) = _
                rw [hshape, map_set_comm]; rfl
              obtain ⟨t1, hu1, hs1, hd1⟩ :=
                ih (items.set d c) (slicePart t d 0 (sizeE c)) a (b ++ rest) hA hshapeA
              obtain ⟨t2, hu2, hs2, hd2⟩ :=
                ih (items.set d (.concat cs)) (slicePart t d (sizeE c) (sumL cs))
                  b rest hB hshapeB
              simp only [hitem, List.append_assoc, hu1, hu2]
              refine ⟨concat2 d (sizeE c) t1 t2 (items.map sizeE), rfl,
                hshape.symm, ?_⟩
              have hsize : (items.map sizeE).getD d 0 = sizeE c + sumL cs := by
                have h1 := List.getD_map (l := items) (d := SExpr.axis none 0) (n := d) sizeE
                have h2 : sizeE (SExpr.axis none 0) = 0 := rfl
                rw [h2] at h1
                rw [h1, hitem]; rfl
              refine toData_eq_of_pointwise hshape.symm (fun idx hv => ?_)
              have hv0 : validIdx (List.map sizeE items) idx = true := hv
              have hlen : idx.length = items.length := by
                simpa using validIdx_length hv0
              have hdidx : d < idx.length := by omega
              have hj : idx.getD d 0 < sizeE c + sumL cs := by
                have := validIdx_getD hv0 d (by simpa using hdlt)
                rwa [hsize] at this
              by_cases hcase : idx.getD d 0 < sizeE c
              · have hb1 : (concat2 d (sizeE c) t1 t2 (items.map sizeE)).val idx
                    = t1.val idx := if_pos hcase
                rw [hb1]
                have hvA : validIdx t1.shape idx = true := by
                  rw [hs1]
                  show validIdx (t.shape.set d (sizeE c)) idx = true
                  rw [hshape]
                  exact validIdx_set_lt hv d (sizeE c) hcase
                rw [pointwise_of_toData_eq hs1 hd1 hvA]
                show t.val (idx.set d (idx.getD d 0 + 0)) = t.val idx
                rw [Nat.add_zero, set_getD_self]
              · have hb2 : (concat2 d (sizeE c) t1 t2 (items.map sizeE)).val idx
                    = t2.val (idx.set d (idx.getD d 0 - sizeE c)) := if_neg hcase
                rw [hb2]
                have hvB : validIdx t2.shape (idx.set d (idx.getD d 0 - sizeE c)) = true := by
                  rw [hs2]
                  show validIdx (t.shape.set d (sumL cs)) _ = true
                  rw [hshape]
                  exact validIdx_set_set hv d _ _ (by omega)
                rw [pointwise_of_toData_eq hs2 hd2 hvB]
                show t.val ((idx.set d (idx.getD d 0 - sizeE c)).set d
                  (((idx.set d (idx.getD d 0 - sizeE c)).getD d 0) + sizeE c)) = t.val idx
                rw [getD_set_self _ _ _ _ hdidx, List.set_set,
                  Nat.sub_add_cancel (by omega), set_getD_self]

/-- C2: for every solved expression E and every conforming tensor T,
flattening (E, T) and then unflattening the flat result with target
expression E reproduces T exactly — same shape and same row-major element
order, consuming exactly the produced pairs. -/
theorem claim_C2 (items : List SExpr) (t : Tensor)
    (ps : List (List FlatAxis × Tensor))
    (hflat : flatten items t = some ps)
    (hconf : t.shape = items.map sizeE) :
    ∃ t2, unflatten items ps = some (t2, []) ∧
      t2.shape = t.shape ∧ t2.toData = t.toData := by
  have h := flatten_unflatten_aux (nodesRoot items + 1) items t ps [] hflat hconf
  simpa [unflatten] using h

/-- Concrete solved expression for the round-trip witness: a concatenation
of two axes followed by a composition of two axes; shape (3, 4). -/
def c2Items : List SExpr :=
  [.concat (.cons (.axis (some "u") 1) (.cons (.axis (some "v") 2) .nil)),
   .comp (.cons (.axis (some "b") 2) (.cons (.axis (some "c") 2) .nil))]

/-- Concrete conforming tensor for the round-trip witness, with pairwise
distinct entries. -/
def c2T : Tensor := ⟨[3, 4], fun idx => (rank [3, 4] idx : Int)⟩

/-- The flat pairs produced by flattening the witness expression. -/
def c2Ps : List (List FlatAxis × Tensor) := (flatten c2Items c2T).getD []

theorem claim_C2_witness :
    ∃ t2, unflatten c2Items c2Ps = some (t2, []) ∧
      t2.shape = c2T.shape ∧ t2.toData = c2T.toData :=
  claim_C2 c2Items c2T c2Ps (by rfl) (by rfl)

/- ## Marker and concatenation predicates (einx `stage3` helpers)

Modelled from the spec (section 4.3: marked-node predicate, traversal). -/

mutual
def hasMarkerE : SExpr → Bool
  | .axis _ _ => false
  | .comp cs => hasMarkerL cs
  | .concat cs => hasMarkerL cs
  | .marker _ => true
def hasMarkerL : SList → Bool
  | .nil => false
  | .cons e l => hasMarkerE e || hasMarkerL l
end

mutual
def hasConcatE : SExpr → Bool
  | .axis _ _ => false
  | .comp cs => hasConcatL cs
  | .concat _ => true
  | .marker e => hasConcatE e
def hasConcatL : SList → Bool
  | .nil => false
  | .cons e l => hasConcatE e || hasConcatL l
end

/- Number of axis leaves carrying a marker (an enclosing `marker` node). -/
mutual
def countMarkedE (m : Bool) : SExpr → Nat
  | .axis _ _ => if m then 1 else 0
  | .comp cs => countMarkedL m cs
  | .concat cs => countMarkedL m cs
  | .marker e => countMarkedE true e
def countMarkedL (m : Bool) : SList → Nat
  | .nil => 0
  | .cons e l => countMarkedE m e + countMarkedL m l
end

/-- Does any top-level item of the root contain a marker? -/
def hasMarkerRoot (items : List SExpr) : Bool :=
  items.any hasMarkerE

/-- Does any top-level item of the root contain a concatenation? -/
def hasConcatRoot (items : List SExpr) : Bool :=
  items.any hasConcatE

/-- Number of marked axis leaves in a root expression. -/
def countMarkedRoot (items : List SExpr) : Nat :=
  (items.map (countMarkedE false)).sum

/- ## The arange operation (src/einx/op/arange.py) -/

/-- Errors raised by `arange_stage3` (each a `ValueError` in the source). -/
inductive ArangeError where
  | markerInInput
  | concatNotAllowed
  | tooManyMarked : Nat → ArangeError
deriving DecidableEq

/-- Is the computation a success? -/
def isOkExcept {ε α : Type} : Except ε α → Bool
  | .ok _ => true
  | .error _ => false

/-- Translated from the source (`arange_stage3`, src/einx/op/arange.py lines
8–43): reject markers in the input expression, reject concatenations in
input or output, reject more than one marked output axis; otherwise build
the tensor.  The construction stage (flatten, `einx.rearrange` over
`backend.arange` results, unflatten — code outside `src/`) is passed in as
`compute`. -/
def arangeStage3 (compute : List SExpr → List SExpr → Tensor)
    (exprIn exprOut : List SExpr) : Except ArangeError Tensor :=
  if hasMarkerRoot exprIn then .error .markerInInput
  else if hasConcatRoot exprIn || hasConcatRoot exprOut then .error .concatNotAllowed
  else if 1 < countMarkedRoot exprOut then
    .error (.tooManyMarked (countMarkedRoot exprOut))
  else .ok (compute exprIn exprOut)

/-- Modelled from the spec (section 4.5: index generation requests one
elementary range per input axis, stacks them along the single marked output
axis in input-axis order, then unflattens) and the `arange` docstring in the
source (start 0, step 1; values stacked in the order the axes appear in the
input): the element at a multi-index is, at stacked coordinate `k`, the
output coordinate of the `k`-th input axis; with no marked axis the result
is the plain range over the single input axis.  `einx.rearrange` and the
backends are outside `src/`. -/
def arangeTensor (exprIn exprOut : List SExpr) : Tensor :=
  let inAxes := (leavesRoot exprIn).getD []
  let outAxes := (leavesRoot exprOut).getD []
  ⟨outAxes.map FlatAxis.value, fun idx =>
    match outAxes.findIdx? (fun b => b.marked) with
    | some m =>
      let k := idx.getD m 0
      let nm := (inAxes.getD k ⟨none, 0, false⟩).name
      (idx.getD (outAxes.findIdx (fun b => !b.marked && b.name == nm)) 0 : Int)
    | none =>
      (idx.getD (outAxes.findIdx
        (fun b => b.name == (inAxes.getD 0 ⟨none, 0, false⟩).name)) 0 : Int)⟩

/-- Shape of an arange result, `none` on failure. -/
def exceptShape : Except ArangeError Tensor → Option (List Nat)
  | .ok t => some t.shape
  | .error _ => none

/-- Element of an arange result at a multi-index, `none` on failure. -/
def exceptVal : Except ArangeError Tensor → List Nat → Option Int
  | .ok t, idx => some (t.val idx)
  | .error _, _ => none

/-- Solved input expression of `"a b [2]"` with a=5, b=6 (scenarios A, B). -/
def exprInAB : List SExpr := [.axis (some "a") 5, .axis (some "b") 6]

/-- Solved output expression of `"a b [2]"` (scenario A). -/
def exprOutA : List SExpr :=
  [.axis (some "a") 5, .axis (some "b") 6, .marker (.axis none 2)]

/-- Solved output expression of `"a b -> b a [2]"` (scenario B). -/
def exprOutB : List SExpr :=
  [.axis (some "b") 6, .axis (some "a") 5, .marker (.axis none 2)]

/-- Solved input/output expression of `"a"` with a=5 (scenario C). -/
def exprC : List SExpr := [.axis (some "a") 5]

/-- C1: arange with description `"a b [2]"`, a=5, b=6 yields shape (5,6,2)
with element (2,3) equal to (2,3); with `"a b -> b a [2]"` it yields shape
(6,5,2) with element (2,3) equal to (3,2); with `"a"`, a=5 it yields shape
(5,).  Stacking along the marked axis follows the input axis order. -/
theorem claim_C1 :
    exceptShape (arangeStage3 arangeTensor exprInAB exprOutA) = some [5, 6, 2] ∧
    exceptVal (arangeStage3 arangeTensor exprInAB exprOutA) [2, 3, 0] = some 2 ∧
    exceptVal (arangeStage3 arangeTensor exprInAB exprOutA) [2, 3, 1] = some 3 ∧
    exceptShape (arangeStage3 arangeTensor exprInAB exprOutB) = some [6, 5, 2] ∧
    exceptVal (arangeStage3 arangeTensor exprInAB exprOutB) [2, 3, 0] = some 3 ∧
    exceptVal (arangeStage3 arangeTensor exprInAB exprOutB) [2, 3, 1] = some 2 ∧
    exceptShape (arangeStage3 arangeTensor exprC exprC) = some [5] := by
  decide

/-- C5: an arange output expression with two or more marked axes always
fails; the result does not depend on the tensor-construction stage, so the
failure occurs before any tensor computation is attempted. -/
theorem claim_C5 (compute compute2 : List SExpr → List SExpr → Tensor)
    (exprIn exprOut : List SExpr) (h : 2 ≤ countMarkedRoot exprOut) :
    arangeStage3 compute exprIn exprOut = arangeStage3 compute2 exprIn exprOut ∧
    isOkExcept (arangeStage3 compute exprIn exprOut) = false := by
  have h3 : 1 < countMarkedRoot exprOut := by omega
  unfold arangeStage3
  split_ifs with h1 h2
  · exact ⟨rfl, rfl⟩
  · exact ⟨rfl, rfl⟩
  · exact ⟨rfl, rfl⟩

/-- Output expression with two marked axes, for the C5 witness. -/
def c5Out : List SExpr :=
  [.marker (.axis (some "a") 2), .marker (.axis (some "b") 3)]

theorem claim_C5_witness :
    arangeStage3 arangeTensor [] c5Out =
      arangeStage3 (fun _ _ => ⟨[], fun _ => 0⟩) [] c5Out ∧
    isOkExcept (arangeStage3 arangeTensor [] c5Out) = false :=
  claim_C5 arangeTensor (fun _ _ => ⟨[], fun _ => 0⟩) [] c5Out (by decide)

/- ## Description-string splitting (src/einx/op/arange.py lines 49–57,
src/einx/op/vmap.py lines 175–184) -/

/-- Parse-stage errors (`ValueError` in the source; `ParseError` in the
spec taxonomy, section 7). -/
inductive ParseErrKind where
  | tooManySeparators
  | disallowedComma
  | separatorCount
deriving DecidableEq

/-- Split a character list on every occurrence of `"->"` (Python
`str.split("->")`: non-overlapping, left to right). -/
def splitArrow : List Char → List (List Char)
  | [] => [[]]
  | '-' :: '>' :: rest => [] :: splitArrow rest
  | c :: rest =>
    match splitArrow rest with
    | [] => [[c]]
    | p :: ps => (c :: p) :: ps

/-- Translated from the source (`parse`, src/einx/op/arange.py lines 49–57):
split the description on `"->"`; more than one separator is an error, and a
comma on either side is an error (arange permits a single input and a single
output expression only). -/
def arangeParseCheck (s : List Char) : Except ParseErrKind (List (List Char)) :=
  if 2 < (splitArrow s).length then .error .tooManySeparators
  else if ((splitArrow s).getD 0 []).contains ',' then .error .disallowedComma
  else if (splitArrow s).length = 2 then
    if ((splitArrow s).getD 1 []).contains ',' then .error .disallowedComma
    else .ok (splitArrow s)
  else .ok (splitArrow s)

/-- Translated from the source (`parse`, src/einx/op/vmap.py lines 175–184):
the description must contain exactly one `"->"` separator; commas are
allowed on both sides (vmap takes multiple comma-separated expressions). -/
def vmapParseCheck (s : List Char) : Except ParseErrKind (List Char × List Char) :=
  match splitArrow s with
  | [a, b] => .ok (a, b)
  | _ => .error .separatorCount

/-- C8: description parsing fails exactly when the string has more than one
`"->"` separator or a comma appears on a side where only a single expression
is allowed — arange permits at most one separator and no commas on either
side; vmap requires exactly one separator. -/
theorem claim_C8 (s : List Char) :
    (isOkExcept (arangeParseCheck s) =
      (decide ((splitArrow s).length ≤ 2) &&
        !(((splitArrow s).getD 0 []).contains ',') &&
        !(decide ((splitArrow s).length = 2) &&
          ((splitArrow s).getD 1 []).contains ','))) ∧
    (isOkExcept (vmapParseCheck s) = decide ((splitArrow s).length = 2)) := by
  constructor
  · unfold arangeParseCheck
    split_ifs with h1 h2 h3 h4 <;> simp_all [isOkExcept]
  · unfold vmapParseCheck
    rcases hsp : splitArrow s with _ | ⟨a, _ | ⟨b, _ | ⟨c, l⟩⟩⟩ <;>
      simp [isOkExcept]

/- ## Equation solving for arange (spec section 4.2; the solver
implementation is outside src) -/

/-- Add a single binding `name = v` to the binding table, failing on a
contradiction (spec section 4.2, termination condition Contradiction). -/
def bindName (b : List (String × Nat)) (n : String) (v : Nat) :
    Option (List (String × Nat)) :=
  match b.lookup n with
  | some v2 => if v = v2 then some b else none
  | none => some ((n, v) :: b)

/-- Modelled from the spec (section 4.2): propagate elementary equations
(named axis = literal size) into the binding table until the fixed point;
with elementary equations one pass reaches it. -/
def propagate : List (String × Nat) → List (String × Nat) →
    Option (List (String × Nat))
  | [], b => some b
  | (n, v) :: eqs, b =>
    match bindName b n v with
    | some b2 => propagate eqs b2
    | none => none

/-- Translated from the source (`parse` and its `after_stage2` hook,
src/einx/op/arange.py lines 64–79), with the surrounding solver modelled
from the spec (section 4.2): the parameter equations propagate to their
fixed point; then the post-solve hook runs exactly once, rejecting more than
one marked output axis and otherwise adding one equation that constrains the
marked output axis to the number of non-marked output axes; the added
equation re-enters propagation. -/
def arangeSolve (outAxes : List (String × Bool))
    (params : List (String × Nat)) : Option (List (String × Nat)) :=
  match propagate params [] with
  | none => none
  | some b1 =>
    let marked := outAxes.filter (fun p => p.2)
    if 1 < marked.length then none
    else
      let ndim := outAxes.length - marked.length
      propagate (marked.map (fun p => (p.1, ndim))) b1

/-- C6: after the primary propagation reaches its fixed point, the arange
post-solve hook runs exactly once and constrains the single marked output
axis to the number of non-marked output axes; the equation re-enters
propagation, so a marked axis whose size was unspecified is solved to that
count. -/
theorem claim_C6 (outAxes : List (String × Bool)) (params : List (String × Nat))
    (m : String) (b1 : List (String × Nat))
    (hmarked : outAxes.filter (fun p => p.2) = [(m, true)])
    (hprop : propagate params [] = some b1)
    (hunbound : b1.lookup m = none) :
    ∃ b2, arangeSolve outAxes params = some b2 ∧
      b2.lookup m = some (outAxes.length - 1) := by
  unfold arangeSolve
  rw [hprop, hmarked]
  simp only [List.length_cons, List.length_nil, Nat.lt_irrefl, if_false,
    List.map_cons, List.map_nil]
  refine ⟨(m, outAxes.length - 1) :: b1, ?_, ?_⟩
  · show propagate [(m, outAxes.length - 1)] b1 = _
    unfold propagate bindName
    rw [hunbound]
    rfl
  · simp [List.lookup]

/-- Output axes and parameters for the C6 witness: `"a b [m]"` with
a=5, b=6 and the marked axis `m` unspecified. -/
def c6Out : List (String × Bool) := [("a", false), ("b", false), ("m", true)]

/-- Parameter equations for the C6 witness. -/
def c6Params : List (String × Nat) := [("a", 5), ("b", 6)]

/-- Primary fixed point of the C6 witness parameters. -/
def c6B1 : List (String × Nat) := (propagate c6Params []).getD []

theorem claim_C6_witness :
    ∃ b2, arangeSolve c6Out c6Params = some b2 ∧
      b2.lookup "m" = some (c6Out.length - 1) :=
  claim_C6 c6Out c6Params "m" c6B1 (by decide) (by rfl) (by decide)

/- ## The vmap operation (src/einx/op/vmap.py) -/

/-- Errors of the vmap pipeline.  In the source every one is a `ValueError`;
the spec taxonomy (section 7) classifies `axisUsage` as `AxisUsageError` and
the two `backendContract` variants as `BackendContractError`. -/
inductive VError where
  | arityMismatch : Nat → Nat → VError
  | unsupported : VError
  | noVmappedAxes : VError
  | axisUsage : Option String → VError
  | backendContractArity : Nat → Nat → VError
  | backendContract : List Nat → List Nat → VError
deriving DecidableEq

/-- Is the error a backend-contract violation (wrong output arity or wrong
output shape of the wrapped function or backend call)? -/
def isBackendContract : VError → Bool
  | .backendContractArity _ _ => true
  | .backendContract _ _ => true
  | _ => false

/-- Flatten a list of root expressions (expression side only). -/
def leavesRoots : List (List SExpr) → Option (List (List FlatAxis))
  | [] => some []
  | r :: rs =>
    match leavesRoot r, leavesRoots rs with
    | some a, some b => some (a :: b)
    | _, _ => none

/-- Marked part of a root expression (einx `stage3.get_marked`): the
top-level items wrapped in a marker, unwrapped.  Modelled from the spec
(sections 3 and 4.3); markers are modelled at the top level of a root. -/
def getMarkedItems (items : List SExpr) : List SExpr :=
  items.filterMap (fun e =>
    match e with
    | .marker e2 => some e2
    | _ => none)

/-- Single step of the vmapped-axis collection (`vmap_stage3` lines 89–91):
append the axis name when the axis is vmapped (not marked) and the name was
not seen yet. -/
def axisStep (acc : List (Option String)) (a : FlatAxis) : List (Option String) :=
  if !a.marked && !(acc.contains a.name) then acc ++ [a.name] else acc

/-- Translated from the source (`vmap_stage3` lines 85–91): collect the
names of the vmapped (non-marked) axes over the flattened input expressions,
in first-seen order, without duplicates. -/
def collectVmapped (rootsIn : List (List FlatAxis)) : List (Option String) :=
  rootsIn.foldl (fun acc root => root.foldl axisStep acc) []

/-- Translated from the source (`vmap_stage3` lines 96–99): the first axis of
the flattened input and output expressions whose membership in the vmapped
axes disagrees with its non-marked status. -/
def findInconsistent (vm : List (Option String)) (roots : List (List FlatAxis)) :
    Option FlatAxis :=
  (roots.flatMap (fun r => r)).find? (fun a => (vm.contains a.name) != !a.marked)

/-- One vectorizing wrap (source `vmap_stage3` lines 115–126): per input the
flat axis index to vectorize over (or `none` when the input lacks the axis),
likewise per output, and the recorded flat output shapes. -/
structure VmapSpec where
  inAxes : List (Option Nat)
  outAxes : List (Option Nat)
  outShapes : List (List Nat)
deriving DecidableEq

/-- Translated from the source (`vmap_stage3` lines 115–134): build one wrap
per vmapped axis; a vmapped axis missing from an output expression is an
axis-usage error; after each wrap the processed axis is removed from every
per-input and per-output name list (Python `list.remove`: first
occurrence). -/
def buildVmaps (a2v : Option String → Nat) :
    List (Option String) → List (List (Option String)) →
    List (List (Option String)) → Except VError (List VmapSpec)
  | [], _, _ => .ok []
  | v :: vs, namesIn, namesOut =>
    if (namesOut.map (fun ns => ns.findIdx? (fun y => y == v))).any
        (fun o => o.isNone) then .error (.axisUsage v)
    else
      match buildVmaps a2v vs (namesIn.map (fun ns => ns.erase v))
          (namesOut.map (fun ns => ns.erase v)) with
      | .error e => .error e
      | .ok ws =>
        .ok (⟨namesIn.map (fun ns => ns.findIdx? (fun y => y == v)),
              namesOut.map (fun ns => ns.findIdx? (fun y => y == v)),
              namesOut.map (fun ns => ns.map a2v)⟩ :: ws)

/-- Source `axisname_to_value` (`vmap_stage3` line 108): axis value by name
over the flat output expressions without broadcast axes. -/
def lookupAxisValue (roots : List (List FlatAxis)) (nm : Option String) : Nat :=
  match (roots.flatMap (fun r => r)).find? (fun a => a.name == nm) with
  | some a => a.value
  | none => 0

/-- Names of all axes of the flattened input expressions (source
`axes_names_in_set`, line 103). -/
def namesInAll (rootsInFlat : List (List FlatAxis)) : List (Option String) :=
  (rootsInFlat.flatMap (fun r => r)).map (fun a => a.name)

/-- Translated from the source (`vmap_stage3` line 104): a broadcast axis is
an axis whose name appears in no flattened input expression and which is not
marked. -/
def isBroadcastAxis (namesIn : List (Option String)) (a : FlatAxis) : Bool :=
  !(namesIn.contains a.name) && !a.marked

/-- Translated from the source (`vmap_stage3` lines 105–106): the flat
output expressions with broadcast axes removed (`stage3.remove` with
`is_broadcast_axis`; on a flat root the generic node removal is a filter
keeping the nodes the predicate rejects). -/
def rootsOutWB (rootsInFlat rootsOutFlat : List (List FlatAxis)) :
    List (List FlatAxis) :=
  rootsOutFlat.map (fun r =>
    r.filter (fun a => !(isBroadcastAxis (namesInAll rootsInFlat) a)))

/-- Vmapped-axis stage of the pipeline (`vmap_stage3` lines 85–134): collect
the vmapped axes, fail when there are none, fail on a vmapped/non-vmapped
inconsistency, then build the wraps. -/
def vmapVmaps (rootsInFlat rootsOutFlat : List (List FlatAxis)) :
    Except VError (List VmapSpec) :=
  if (collectVmapped rootsInFlat).isEmpty then .error .noVmappedAxes
  else
    match findInconsistent (collectVmapped rootsInFlat)
        (rootsInFlat ++ rootsOutFlat) with
    | some a => .error (.axisUsage a.name)
    | none =>
      buildVmaps (lookupAxisValue (rootsOutWB rootsInFlat rootsOutFlat))
        (collectVmapped rootsInFlat)
        (rootsInFlat.map (fun r => r.map (fun a => a.name)))
        ((rootsOutWB rootsInFlat rootsOutFlat).map
          (fun r => r.map (fun a => a.name)))

/-- Placeholder tensor. -/
def dummyT : Tensor := ⟨[], fun _ => 0⟩

/-- Slice of a tensor at coordinate `i` of dimension `d` (the dimension is
removed). -/
def sliceIdx (t : Tensor) (d i : Nat) : Tensor :=
  ⟨t.shape.eraseIdx d, fun idx => t.val (List.insertIdx d i idx)⟩

/-- Stack `n` tensors of equal shape along a new dimension `d`. -/
def stackAt (n d : Nat) (parts : Nat → Tensor) : Tensor :=
  ⟨List.insertIdx d n (parts 0).shape,
   fun idx => (parts (idx.getD d 0)).val (idx.eraseIdx d)⟩

/-- Run a call per index, collecting results, first error wins. -/
def collectCalls (call : Nat → Except VError (List Tensor)) :
    List Nat → Except VError (List (List Tensor))
  | [] => .ok []
  | i :: is =>
    match call i with
    | .error e => .error e
    | .ok r =>
      match collectCalls call is with
      | .error e => .error e
      | .ok rs => .ok (r :: rs)

/-- The argument slices handed to the wrapped callable for coordinate `i`:
inputs with a vectorized axis are sliced there, inputs without one are
passed whole. -/
def vmapSlices (ts : List Tensor) (inAxes : List (Option Nat)) (i : Nat) :
    List Tensor :=
  (ts.zip inAxes).map (fun p =>
    match p.2 with
    | some d => sliceIdx p.1 d i
    | none => p.1)

/-- Extent of the vectorized dimension: taken from the first input that
carries a vectorize-axis index. -/
def vmapExtent (ts : List Tensor) (inAxes : List (Option Nat)) : Nat :=
  match (ts.zip inAxes).findSome?
      (fun p => p.2.map (fun d => p.1.shape.getD d 0)) with
  | some n => n
  | none => 0

/-- Modelled from the spec (section 6, the vectorizing-map combinator of the
backend capability interface): apply the callable at every coordinate of the
vectorized dimension (first error wins) and stack the per-output results
along the requested output axes.  A zero extent or a missing output axis
index is outside the model. -/
def backendVmap (f : List Tensor → Except VError (List Tensor))
    (inAxes outAxes : List (Option Nat)) (ts : List Tensor) :
    Except VError (List Tensor) :=
  if vmapExtent ts inAxes = 0 then .error .unsupported
  else if outAxes.any (fun o => o.isNone) then .error .unsupported
  else
    match collectCalls (fun i => f (vmapSlices ts inAxes i))
        (List.range (vmapExtent ts inAxes)) with
    | .error e => .error e
    | .ok results =>
      .ok ((List.range outAxes.length).map (fun j =>
        stackAt (vmapExtent ts inAxes) ((outAxes.getD j none).getD 0)
          (fun i => (results.getD i []).getD j dummyT)))

/-- Translated from the source (the inner `op` wrapper, `vmap_stage3` lines
48–82): unflatten the flat marked input tensors to the structured marked
input expressions (a reshape; concatenations are outside this model), call
the user operation, fail when the number of outputs differs from the number
of declared marked output expressions, fail when an output's shape differs
from its declared marked output expression's shape, then flatten the outputs
back (a reshape to the flat marked output shapes). -/
def wrappedOp (userOp : List Tensor → List Tensor)
    (exprsInFuncargs exprsOutFuncargs : List (List SExpr))
    (rootsOutFuncargsFlat : List (List FlatAxis))
    (tsFlat : List Tensor) : Except VError (List Tensor) :=
  if (userOp ((tsFlat.zip exprsInFuncargs).map
      (fun p => reshape p.1 (p.2.map sizeE)))).length ≠ exprsOutFuncargs.length then
    .error (.backendContractArity exprsOutFuncargs.length
      (userOp ((tsFlat.zip exprsInFuncargs).map
        (fun p => reshape p.1 (p.2.map sizeE)))).length)
  else
    match ((userOp ((tsFlat.zip exprsInFuncargs).map
        (fun p => reshape p.1 (p.2.map sizeE)))).zip exprsOutFuncargs).find?
        (fun p => !(p.1.shape == p.2.map sizeE)) with
    | some p => .error (.backendContract (p.2.map sizeE) p.1.shape)
    | none =>
      .ok (((userOp ((tsFlat.zip exprsInFuncargs).map
          (fun p => reshape p.1 (p.2.map sizeE)))).zip rootsOutFuncargsFlat).map
        (fun p => reshape p.1 (p.2.map FlatAxis.value)))

/-- Translated from the source (`vmap_stage3` lines 136–137): fold
`backend.vmap` over the wraps in reversed collection order, so the
first-collected axis's wrap is applied last and is outermost. -/
def composeVmaps (f : List Tensor → Except VError (List Tensor))
    (ws : List VmapSpec) : List Tensor → Except VError (List Tensor) :=
  ws.reverse.foldl (fun g w => backendVmap g w.inAxes w.outAxes) f

/-- Translated from the source (`vmap_stage3` line 143,
`backend.assert_shape`; spec section 7 classifies the mismatch as
`BackendContractError`): check every executed result against the expected
flat-without-broadcast output shape. -/
def assertShapes (ts : List Tensor) (expected : List (List Nat)) :
    Except VError (List Tensor) :=
  match (ts.zip expected).find? (fun p => !(p.1.shape == p.2)) with
  | some p => .error (.backendContract p.2 p.1.shape)
  | none => .ok ts

/-- Modelled from the spec (section 4.5 step 5): insert the broadcast axes
missing from an executed result and transpose all axes into the order the
flat output expression requires — each output coordinate is read off at the
position its axis name has in the target expression. -/
def transposeBroadcast (fromAxes : List FlatAxis) (t : Tensor)
    (toAxes : List FlatAxis) : Tensor :=
  ⟨toAxes.map FlatAxis.value,
   fun idx => t.val (fromAxes.map (fun a =>
     idx.getD (toAxes.findIdx (fun b => b.name == a.name)) 0))⟩

/-- Final stage (`vmap_stage3` lines 149–157): transpose/broadcast each
executed result to its flat output expression, then unflatten it to the
structured output expression (a reshape in this concatenation-free
model). -/
def finishOutputs : List (List FlatAxis) → List (List FlatAxis) →
    List (List SExpr) → List Tensor → List Tensor
  | rwb :: rwbs, rof :: rofs, eo :: eos, t :: ts =>
    reshape (transposeBroadcast rwb t rof) (eo.map sizeE) ::
      finishOutputs rwbs rofs eos ts
  | _, _, _, _ => []

/-- Translated from the source (`vmap_stage3`, src/einx/op/vmap.py lines
6–161), with the tensor-level collaborators (flatten/unflatten as reshape in
this concatenation-free model, `backend.vmap`, `backend.assert_shape`,
`transpose_broadcast`) modelled from the spec (sections 4.4, 4.5, 6).
Stages in source order: input arity check; flattening; the wrapped
elementary operation; vmapped-axis collection with the no-vmapped-axes check
and the vmapped/non-vmapped consistency check; broadcast classification;
wrap construction; composition of the wraps in reversed order; execution;
shape assertion; transpose/broadcast; unflattening. -/
def vmapStage3 (exprsIn : List (List SExpr)) (tensorsIn : List Tensor)
    (exprsOut : List (List SExpr)) (userOp : List Tensor → List Tensor) :
    Except VError (List Tensor) :=
  if exprsIn.length ≠ tensorsIn.length then
    .error (.arityMismatch exprsIn.length tensorsIn.length)
  else
    match leavesRoots exprsIn, leavesRoots exprsOut with
    | some rootsInFlat, some rootsOutFlat =>
      match vmapVmaps rootsInFlat rootsOutFlat with
      | .error e => .error e
      | .ok ws =>
        match composeVmaps
            (wrappedOp userOp (exprsIn.map getMarkedItems)
              (exprsOut.map getMarkedItems)
              (rootsOutFlat.map (fun r => r.filter (fun a => a.marked))))
            ws
            ((tensorsIn.zip rootsInFlat).map
              (fun p => reshape p.1 (p.2.map FlatAxis.value))) with
        | .error e => .error e
        | .ok ts =>
          match assertShapes ts ((rootsOutWB rootsInFlat rootsOutFlat).map
              (fun r => r.map FlatAxis.value)) with
          | .error e => .error e
          | .ok ts2 =>
            .ok (finishOutputs (rootsOutWB rootsInFlat rootsOutFlat)
              rootsOutFlat exprsOut ts2)
    | _, _ => .error .unsupported

/- ## Auxiliary lemmas on the vmapped-axis collection -/

theorem containsOptName (l : List (Option String)) (x : Option String) :
    l.contains x = true ↔ x ∈ l := by
  induction l with
  | nil => simp
  | cons a l ih =>
    simp only [List.contains_cons, Bool.or_eq_true, beq_iff_eq, List.mem_cons, ih]

theorem foldlAxes_marked (r : List FlatAxis) :
    ∀ acc, (∀ a ∈ r, a.marked = true) → r.foldl axisStep acc = acc := by
  induction r with
  | nil => intro acc _; rfl
  | cons a r ih =>
    intro acc h
    have ha : a.marked = true := h a (by simp)
    have hstep : axisStep acc a = acc := by unfold axisStep; rw [ha]; simp
    rw [List.foldl_cons, hstep]
    exact ih acc (fun b hb => h b (by simp [hb]))

/-- With all input axes marked, no axis is collected (`vmap_stage3` lines
85–93). -/
theorem collectVmapped_all_marked (roots : List (List FlatAxis))
    (h : ∀ r ∈ roots, ∀ a ∈ r, a.marked = true) :
    collectVmapped roots = [] := by
  suffices h2 : ∀ acc, roots.foldl (fun acc root => root.foldl axisStep acc) acc = acc by
    exact h2 []
  induction roots with
  | nil => intro acc; rfl
  | cons r roots ih =>
    intro acc
    rw [List.foldl_cons, foldlAxes_marked r acc (h r (by simp))]
    exact ih (fun r2 h2 a ha => h r2 (by simp [h2]) a ha) acc

theorem mem_foldlAxes (r : List FlatAxis) :
    ∀ acc n, (n ∈ r.foldl axisStep acc ↔
      n ∈ acc ∨ ∃ a ∈ r, a.marked = false ∧ a.name = n) := by
  induction r with
  | nil => intro acc n; simp
  | cons a r ih =>
    intro acc n
    rw [List.foldl_cons]
    by_cases hm : a.marked
    · have hstep : axisStep acc a = acc := by unfold axisStep; rw [hm]; simp
      rw [hstep, ih]
      constructor
      · rintro (h | ⟨b, hb, hb2⟩)
        · exact Or.inl h
        · exact Or.inr ⟨b, by simp [hb], hb2⟩
      · rintro (h | ⟨b, hb, hbm, hbn⟩)
        · exact Or.inl h
        · rcases List.mem_cons.mp hb with hba | hbr
          · subst hba; rw [hm] at hbm; cases hbm
          · exact Or.inr ⟨b, hbr, hbm, hbn⟩
    · rw [Bool.not_eq_true] at hm
      by_cases hc : acc.contains a.name
      · have hstep : axisStep acc a = acc := by
          unfold axisStep; rw [hm, hc]; simp
        rw [hstep, ih]
        have hmem : a.name ∈ acc := (containsOptName acc a.name).mp hc
        constructor
        · rintro (h | ⟨b, hb, hb2⟩)
          · exact Or.inl h
          · exact Or.inr ⟨b, by simp [hb], hb2⟩
        · rintro (h | ⟨b, hb, hbm, hbn⟩)
          · exact Or.inl h
          · rcases List.mem_cons.mp hb with hba | hbr
            · subst hba; subst hbn; exact Or.inl hmem
            · exact Or.inr ⟨b, hbr, hbm, hbn⟩
      · have hcf : acc.contains a.name = false := by
          cases hcc : acc.contains a.name
          · rfl
          · exact absurd hcc hc
        have hstep : axisStep acc a = acc ++ [a.name] := by
          unfold axisStep
          rw [hm, hcf]
          simp
        rw [hstep, ih]
        constructor
        · rintro (h | ⟨b, hb, hbm, hbn⟩)
          · rcases List.mem_append.mp h with h2 | h2
            · exact Or.inl h2
            · exact Or.inr ⟨a, by simp, hm, (List.mem_singleton.mp h2).symm⟩
          · exact Or.inr ⟨b, by simp [hb], hbm, hbn⟩
        · rintro (h | ⟨b, hb, hbm, hbn⟩)
          · exact Or.inl (List.mem_append.mpr (Or.inl h))
          · rcases List.mem_cons.mp hb with hba | hbr
            · subst hba
              exact Or.inl (List.mem_append.mpr
                (Or.inr (List.mem_singleton.mpr hbn.symm)))
            · exact Or.inr ⟨b, hbr, hbm, hbn⟩

/-- Characterization of the collected vmapped axes: exactly the names of
non-marked axes of the flattened input expressions. -/
theorem mem_collectVmapped (roots : List (List FlatAxis)) (n : Option String) :
    n ∈ collectVmapped roots ↔
      ∃ r ∈ roots, ∃ a ∈ r, a.marked = false ∧ a.name = n := by
  suffices h2 : ∀ acc, (n ∈ roots.foldl (fun acc root => root.foldl axisStep acc) acc ↔
      n ∈ acc ∨ ∃ r ∈ roots, ∃ a ∈ r, a.marked = false ∧ a.name = n) by
    have := h2 []
    simpa [collectVmapped] using this
  induction roots with
  | nil => intro acc; simp
  | cons r roots ih =>
    intro acc
    rw [List.foldl_cons, ih, mem_foldlAxes]
    constructor
    · rintro ((h | ⟨a, ha, ham, han⟩) | ⟨r2, hr2, ha⟩)
      · exact Or.inl h
      · exact Or.inr ⟨r, by simp, a, ha, ham, han⟩
      · exact Or.inr ⟨r2, by simp [hr2], ha⟩
    · rintro (h | ⟨r2, hr2, a, ha, ham, han⟩)
      · exact Or.inl (Or.inl h)
      · rcases List.mem_cons.mp hr2 with hrr | hrr
        · subst hrr; exact Or.inl (Or.inr ⟨a, ha, ham, han⟩)
        · exact Or.inr ⟨r2, hrr, a, ha, ham, han⟩

theorem findIdxNone (p : Option String → Bool) (l : List (Option String))
    (h : ∀ x ∈ l, p x = false) : l.findIdx? p = none := by
  rw [List.findIdx?_eq_none_iff]
  exact h

/-- A vmapped axis name missing from one of the output name lists makes
`buildVmaps` fail with an axis-usage error (`vmap_stage3` lines 121–123). -/
theorem buildVmaps_absent (a2v : Option String → Nat) :
    ∀ (vs : List (Option String)) (namesIn namesOut : List (List (Option String)))
      (nm : Option String), nm ∈ vs →
      (∃ L ∈ namesOut, nm ∉ L) →
      ∃ nm2, buildVmaps a2v vs namesIn namesOut = .error (.axisUsage nm2) := by
  intro vs
  induction vs with
  | nil => intro _ _ _ h _; simp at h
  | cons v vs ih =>
    rintro namesIn namesOut nm hmem ⟨L, hL, hnotin⟩
    unfold buildVmaps
    by_cases hany : (namesOut.map (fun ns => ns.findIdx? (fun y => y == v))).any
        (fun o => o.isNone)
    · rw [if_pos hany]
      exact ⟨v, rfl⟩
    · rw [if_neg hany]
      have hvne : v ≠ nm := by
        intro he
        subst he
        have hnone : L.findIdx? (fun y => y == v) = none :=
          findIdxNone _ L (fun x hx => by
            rcases hxx : x == v with _ | _
            · rfl
            · exact absurd (by rw [eq_of_beq hxx] at hx; exact hx) hnotin)
        apply hany
        rw [List.any_eq_true]
        exact ⟨none, List.mem_map.mpr ⟨L, hL, hnone⟩, rfl⟩
      have hmem2 : nm ∈ vs := by
        rcases List.mem_cons.mp hmem with h | h
        · exact absurd h.symm hvne
        · exact h
      obtain ⟨nm2, hb⟩ := ih (namesIn.map (fun ns => ns.erase v))
        (namesOut.map (fun ns => ns.erase v)) nm hmem2
        ⟨L.erase v, List.mem_map.mpr ⟨L, hL, rfl⟩,
          fun hmem3 => hnotin (List.mem_of_mem_erase hmem3)⟩
      rw [hb]
      exact ⟨nm2, rfl⟩

/-- C9: a vmap call in which every axis of every flattened input expression
is marked has no axis left to vectorize over and always fails with the
no-vmapped-axes error, for every wrapped operation — the backend is never
invoked. -/
theorem claim_C9 (exprsIn : List (List SExpr)) (tensorsIn : List Tensor)
    (exprsOut : List (List SExpr))
    (rootsInFlat rootsOutFlat : List (List FlatAxis))
    (hlen : exprsIn.length = tensorsIn.length)
    (hin : leavesRoots exprsIn = some rootsInFlat)
    (hout : leavesRoots exprsOut = some rootsOutFlat)
    (hall : ∀ r ∈ rootsInFlat, ∀ a ∈ r, a.marked = true) :
    ∀ userOp, vmapStage3 exprsIn tensorsIn exprsOut userOp =
      .error .noVmappedAxes := by
  intro userOp
  have hvm : vmapVmaps rootsInFlat rootsOutFlat = .error .noVmappedAxes := by
    unfold vmapVmaps
    rw [collectVmapped_all_marked rootsInFlat hall]
    rfl
  unfold vmapStage3
  rw [if_neg (by omega)]
  simp only [hin, hout, hvm]

/-- C3: an axis that appears unmarked in some input expression but is absent
from an output expression, or appears marked somewhere while unmarked in the
input, makes the vmap call fail with an axis-usage error; the error does not
depend on the wrapped operation, so it occurs before the backend is
invoked. -/
theorem claim_C3 (exprsIn : List (List SExpr)) (tensorsIn : List Tensor)
    (exprsOut : List (List SExpr))
    (rootsInFlat rootsOutFlat : List (List FlatAxis))
    (a : FlatAxis) (r : List FlatAxis)
    (hlen : exprsIn.length = tensorsIn.length)
    (hin : leavesRoots exprsIn = some rootsInFlat)
    (hout : leavesRoots exprsOut = some rootsOutFlat)
    (hr : r ∈ rootsInFlat) (ha : a ∈ r) (hunmarked : a.marked = false)
    (hviol : (∃ ro ∈ rootsOutFlat, ∀ b ∈ ro, b.name ≠ a.name) ∨
      (∃ ro ∈ rootsInFlat ++ rootsOutFlat, ∃ b ∈ ro,
        b.name = a.name ∧ b.marked = true)) :
    ∃ nm, ∀ userOp, vmapStage3 exprsIn tensorsIn exprsOut userOp =
      .error (.axisUsage nm) := by
  have hmemvm : a.name ∈ collectVmapped rootsInFlat :=
    (mem_collectVmapped rootsInFlat a.name).mpr ⟨r, hr, a, ha, hunmarked, rfl⟩
  have hvm : ∃ nm, vmapVmaps rootsInFlat rootsOutFlat = .error (.axisUsage nm) := by
    unfold vmapVmaps
    rw [if_neg (by
      intro hemp
      rw [List.isEmpty_iff] at hemp
      rw [hemp] at hmemvm
      simp at hmemvm)]
    cases hfi : findInconsistent (collectVmapped rootsInFlat)
        (rootsInFlat ++ rootsOutFlat) with
    | some b => exact ⟨b.name, rfl⟩
    | none =>
      rcases hviol with ⟨ro, hro, habs⟩ | ⟨ro, hro, b, hb, hbn, hbm⟩
      · -- absent from an output: buildVmaps fails
        apply buildVmaps_absent
        · exact hmemvm
        · refine ⟨(ro.filter (fun x =>
            !(isBroadcastAxis (namesInAll rootsInFlat) x))).map (fun x => x.name),
            ?_, ?_⟩
          · exact List.mem_map.mpr ⟨_, List.mem_map.mpr ⟨ro, hro, rfl⟩, rfl⟩
          · intro hmem3
            obtain ⟨b, hb, hbn⟩ := List.mem_map.mp hmem3
            exact habs b (List.mem_of_mem_filter hb) hbn
      · -- marked occurrence of a vmapped name: contradicts consistency
        exfalso
        have hfin := List.find?_eq_none.mp hfi b
          (List.mem_flatMap.mpr ⟨ro, hro, hb⟩)
        rw [hbm, hbn] at hfin
        have : (collectVmapped rootsInFlat).contains a.name = true :=
          (containsOptName _ _).mpr hmemvm
        rw [this] at hfin
        simp at hfin
  obtain ⟨nm, hnm⟩ := hvm
  refine ⟨nm, fun userOp => ?_⟩
  unfold vmapStage3
  rw [if_neg (by omega)]
  simp only [hin, hout, hnm]

/- ## Auxiliary lemmas for the execution stage -/

theorem composeVmaps_nil (f : List Tensor → Except VError (List Tensor))
    (ts : List Tensor) : composeVmaps f [] ts = f ts := rfl

/-- Folding in reversed order makes the head wrap outermost
(`vmap_stage3` lines 136–137). -/
theorem composeVmaps_cons (f : List Tensor → Except VError (List Tensor))
    (w : VmapSpec) (ws : List VmapSpec) (ts : List Tensor) :
    composeVmaps f (w :: ws) ts =
      backendVmap (composeVmaps f ws) w.inAxes w.outAxes ts := by
  unfold composeVmaps
  rw [List.reverse_cons, List.foldl_append]
  rfl

theorem collectCalls_ok_forall (call : Nat → Except VError (List Tensor)) :
    ∀ (is : List Nat) (rs : List (List Tensor)),
    collectCalls call is = .ok rs → ∀ i ∈ is, ∃ r, call i = .ok r := by
  intro is
  induction is with
  | nil => intro rs _ i hi; simp at hi
  | cons j is ih =>
    intro rs hok i hi
    unfold collectCalls at hok
    cases hcj : call j with
    | error e => simp only [hcj] at hok; exact Except.noConfusion hok
    | ok r =>
      simp only [hcj] at hok
      cases hcr : collectCalls call is with
      | error e => simp only [hcr] at hok; exact Except.noConfusion hok
      | ok rs2 =>
        rcases List.mem_cons.mp hi with h | h
        · subst h; exact ⟨r, hcj⟩
        · exact ih rs2 hcr i h

theorem collectCalls_err (call : Nat → Except VError (List Tensor))
    (is : List Nat) (hne : is ≠ [])
    (h : ∀ i ∈ is, ∃ e, call i = .error e ∧ isBackendContract e = true) :
    ∃ e, collectCalls call is = .error e ∧ isBackendContract e = true := by
  cases is with
  | nil => exact absurd rfl hne
  | cons j is =>
    obtain ⟨e, he, hbc⟩ := h j (by simp)
    refine ⟨e, ?_, hbc⟩
    unfold collectCalls
    simp only [he]

/-- When the composed wraps succeed for one elementary operation, they
invoke the operation at least once per nesting level; replacing the
operation by one that always fails with a backend-contract error makes the
whole composition fail with a backend-contract error. -/
theorem composeErrLift : ∀ (ws : List VmapSpec) (ts : List Tensor)
    (f g : List Tensor → Except VError (List Tensor)) (r : List Tensor),
    composeVmaps f ws ts = .ok r →
    (∀ ins, ∃ e, g ins = .error e ∧ isBackendContract e = true) →
    ∃ e, composeVmaps g ws ts = .error e ∧ isBackendContract e = true := by
  intro ws
  induction ws with
  | nil => intro ts f g r hok hbad; exact hbad ts
  | cons w ws ih =>
    intro ts f g r hok hbad
    rw [composeVmaps_cons] at hok ⊢
    unfold backendVmap at hok ⊢
    by_cases h0 : vmapExtent ts w.inAxes = 0
    · rw [if_pos h0] at hok; exact Except.noConfusion hok
    · rw [if_neg h0] at hok ⊢
      by_cases h1 : w.outAxes.any (fun o => o.isNone)
      · rw [if_pos h1] at hok; exact Except.noConfusion hok
      · rw [if_neg h1] at hok ⊢
        cases hc : collectCalls
            (fun i => composeVmaps f ws (vmapSlices ts w.inAxes i))
            (List.range (vmapExtent ts w.inAxes)) with
        | error e => simp only [hc] at hok; exact Except.noConfusion hok
        | ok results =>
          have hall := collectCalls_ok_forall _ _ _ hc
          have hbadcalls : ∀ i ∈ List.range (vmapExtent ts w.inAxes),
              ∃ e, composeVmaps g ws (vmapSlices ts w.inAxes i) = .error e ∧
                isBackendContract e = true := by
            intro i hi
            obtain ⟨r2, hr2⟩ := hall i hi
            exact ih (vmapSlices ts w.inAxes i) f g r2 hr2 hbad
          have hne : List.range (vmapExtent ts w.inAxes) ≠ [] := by
            intro hemp
            exact h0 (List.range_eq_nil.mp hemp)
          obtain ⟨e, hce, hbc⟩ := collectCalls_err _ _ hne hbadcalls
          refine ⟨e, ?_, hbc⟩
          simp only [hce]

theorem findExists {α : Type} (p : α → Bool) : ∀ (l : List α),
    (∃ x ∈ l, p x = true) → ∃ y, l.find? p = some y ∧ p y = true := by
  intro l
  induction l with
  | nil => rintro ⟨x, hx, _⟩; simp at hx
  | cons a l ih =>
    rintro ⟨x, hx, hpx⟩
    cases hpa : p a with
    | true => exact ⟨a, by simp [List.find?_cons, hpa], hpa⟩
    | false =>
      have hxl : x ∈ l := by
        rcases List.mem_cons.mp hx with h | h
        · subst h; rw [hpa] at hpx; cases hpx
        · exact h
      obtain ⟨y, hy, hpy⟩ := ih ⟨x, hxl, hpx⟩
      exact ⟨y, by simp [List.find?_cons, hpa, hy], hpy⟩

/-- An operation that always returns the wrong number of outputs or a wrong
output shape makes the wrapped elementary operation fail with a
backend-contract error (`vmap_stage3` lines 59–72). -/
theorem wrappedOp_bad (userOp : List Tensor → List Tensor)
    (E1 E2 : List (List SExpr)) (R : List (List FlatAxis))
    (hBad : ∀ ins, (userOp ins).length ≠ E2.length ∨
      ∃ p ∈ (userOp ins).zip E2, p.1.shape ≠ p.2.map sizeE) :
    ∀ ts, ∃ e, wrappedOp userOp E1 E2 R ts = .error e ∧
      isBackendContract e = true := by
  intro ts
  unfold wrappedOp
  by_cases hl : (userOp ((ts.zip E1).map
      (fun p => reshape p.1 (p.2.map sizeE)))).length ≠ E2.length
  · rw [if_pos hl]
    exact ⟨_, rfl, rfl⟩
  · rw [if_neg hl]
    rcases hBad ((ts.zip E1).map (fun p => reshape p.1 (p.2.map sizeE))) with
      h | ⟨p, hp, hsh⟩
    · exact absurd h hl
    · have hex : ∃ x ∈ (userOp ((ts.zip E1).map
          (fun q => reshape q.1 (q.2.map sizeE)))).zip E2,
          (fun q => !(q.1.shape == q.2.map sizeE)) x = true :=
        ⟨p, hp, by
          show (!(p.1.shape == p.2.map sizeE)) = true
          rw [beq_eq_false_iff_ne.mpr hsh]
          rfl⟩
      obtain ⟨y, hy, hpy⟩ := findExists _ _ hex
      refine ⟨VError.backendContract (y.2.map sizeE) y.1.shape, ?_, rfl⟩
      simp only [hy]

/-- C4: when the wrapped function of an otherwise successful vmap call
always returns the wrong number of output tensors or an output tensor whose
shape differs from the declared (solved) marked output shape, the call fails
with a backend-contract error reporting expected versus actual, and no
result is returned to the caller. -/
theorem claim_C4 (exprsIn : List (List SExpr)) (tensorsIn : List Tensor)
    (exprsOut : List (List SExpr)) (opGood opBad : List Tensor → List Tensor)
    (res : List Tensor)
    (hGood : vmapStage3 exprsIn tensorsIn exprsOut opGood = .ok res)
    (hBad : ∀ ins, (opBad ins).length ≠ (exprsOut.map getMarkedItems).length ∨
      ∃ p ∈ (opBad ins).zip (exprsOut.map getMarkedItems),
        p.1.shape ≠ p.2.map sizeE) :
    ∃ e, vmapStage3 exprsIn tensorsIn exprsOut opBad = .error e ∧
      isBackendContract e = true := by
  unfold vmapStage3 at hGood ⊢
  by_cases hlen : exprsIn.length ≠ tensorsIn.length
  · rw [if_pos hlen] at hGood; exact Except.noConfusion hGood
  · rw [if_neg hlen] at hGood ⊢
    cases hin : leavesRoots exprsIn with
    | none => simp only [hin] at hGood; exact Except.noConfusion hGood
    | some rootsInFlat =>
      cases hout : leavesRoots exprsOut with
      | none => simp only [hin, hout] at hGood; exact Except.noConfusion hGood
      | some rootsOutFlat =>
        simp only [hin, hout] at hGood ⊢
        cases hvv : vmapVmaps rootsInFlat rootsOutFlat with
        | error e => simp only [hvv] at hGood; exact Except.noConfusion hGood
        | ok ws =>
          simp only [hvv] at hGood ⊢
          cases hcg : composeVmaps
              (wrappedOp opGood (exprsIn.map getMarkedItems)
                (exprsOut.map getMarkedItems)
                (rootsOutFlat.map (fun r => r.filter (fun a => a.marked)))) ws
              ((tensorsIn.zip rootsInFlat).map
                (fun p => reshape p.1 (p.2.map FlatAxis.value))) with
          | error e => simp only [hcg] at hGood; exact Except.noConfusion hGood
          | ok ts =>
            have hbadInner := wrappedOp_bad opBad (exprsIn.map getMarkedItems)
              (exprsOut.map getMarkedItems)
              (rootsOutFlat.map (fun r => r.filter (fun a => a.marked))) hBad
            obtain ⟨e, hce, hbc⟩ := composeErrLift ws
              ((tensorsIn.zip rootsInFlat).map
                (fun p => reshape p.1 (p.2.map FlatAxis.value)))
              _ _ ts hcg hbadInner
            refine ⟨e, ?_, hbc⟩
            simp only [hce]

/- ## First-seen order of the vmapped-axis collection (claim C7) -/

/-- Reference deduplication keeping the first occurrence of every name. -/
def dedupFirst : List (Option String) → List (Option String)
  | [] => []
  | x :: xs => x :: dedupFirst (xs.filter (fun y => !(y == x)))
termination_by l => l.length
decreasing_by
  simp only [List.length_cons]
  exact Nat.lt_succ_of_le (List.length_filter_le _ _)

/-- Names of the non-marked axes over the flattened input expressions, in
traversal order, duplicates kept. -/
def allUnmarkedNames (roots : List (List FlatAxis)) : List (Option String) :=
  ((roots.flatMap (fun r => r)).filter (fun a => !a.marked)).map
    (fun a => a.name)

/-- The name-level step of the collection. -/
def nameStep (acc : List (Option String)) (n : Option String) :
    List (Option String) :=
  if !(acc.contains n) then acc ++ [n] else acc

theorem collect_foldl_join (roots : List (List FlatAxis)) :
    ∀ acc, roots.foldl (fun acc root => root.foldl axisStep acc) acc =
      (roots.flatMap (fun r => r)).foldl axisStep acc := by
  induction roots with
  | nil => intro acc; rfl
  | cons r roots ih =>
    intro acc
    rw [List.foldl_cons, ih,
      show (r :: roots).flatMap (fun r => r) =
        r ++ roots.flatMap (fun r => r) from by simp,
      List.foldl_append]

theorem foldl_axisStep_names (axes : List FlatAxis) :
    ∀ acc, axes.foldl axisStep acc =
      ((axes.filter (fun a => !a.marked)).map (fun a => a.name)).foldl
        nameStep acc := by
  induction axes with
  | nil => intro acc; rfl
  | cons a axes ih =>
    intro acc
    rw [List.foldl_cons]
    cases hm : a.marked with
    | true =>
      have hstep : axisStep acc a = acc := by unfold axisStep; rw [hm]; simp
      rw [hstep, ih,
        show (a :: axes).filter (fun x => !x.marked) =
          axes.filter (fun x => !x.marked) from by simp [List.filter_cons, hm]]
    | false =>
      have hstep : axisStep acc a = nameStep acc a.name := by
        unfold axisStep nameStep; rw [hm]; simp
      rw [hstep,
        show (a :: axes).filter (fun x => !x.marked) =
          a :: axes.filter (fun x => !x.marked) from by
            simp [List.filter_cons, hm],
        List.map_cons, List.foldl_cons]
      exact ih (nameStep acc a.name)

theorem beqDecide (y n : Option String) : (y == n) = decide (y = n) := by
  by_cases h : y = n
  · subst h; simp
  · rw [beq_eq_false_iff_ne.mpr h, decide_eq_false h]

theorem containsAppendSingle (acc : List (Option String)) (y n : Option String) :
    (acc ++ [n]).contains y = (acc.contains y || (y == n)) := by
  induction acc with
  | nil => simp [List.contains_cons, beqDecide]
  | cons a acc ih => simp [List.contains_cons, ih, Bool.or_assoc, beqDecide]

theorem foldl_nameStep_dedup : ∀ (l : List (Option String))
    (acc : List (Option String)),
    l.foldl nameStep acc =
      acc ++ dedupFirst (l.filter (fun n => !(acc.contains n))) := by
  intro l
  induction l with
  | nil => intro acc; simp [dedupFirst]
  | cons n l ih =>
    intro acc
    rw [List.foldl_cons]
    by_cases hc : acc.contains n = true
    · have hmem : n ∈ acc := (containsOptName acc n).mp hc
      have hstep : nameStep acc n = acc := by unfold nameStep; rw [hc]; simp
      rw [hstep, ih]
      congr 1
      rw [show (n :: l).filter (fun y => !(acc.contains y)) =
        l.filter (fun y => !(acc.contains y)) from by
          simp [List.filter_cons, hc, hmem]]
    · have hcf : acc.contains n = false := by
        cases hcc : acc.contains n
        · rfl
        · exact absurd hcc hc
      have hnmem : n ∉ acc := fun hmm => hc ((containsOptName acc n).mpr hmm)
      have hstep : nameStep acc n = acc ++ [n] := by
        unfold nameStep; rw [hcf]; simp
      rw [hstep, ih,
        show (n :: l).filter (fun y => !(acc.contains y)) =
          n :: l.filter (fun y => !(acc.contains y)) from by
            simp [List.filter_cons, hcf, hnmem],
        show dedupFirst (n :: l.filter (fun y => !(acc.contains y))) =
          n :: dedupFirst ((l.filter (fun y => !(acc.contains y))).filter
            (fun y => !(y == n))) from by rw [dedupFirst]]
      have hff : (l.filter (fun y => !(acc.contains y))).filter
          (fun y => !(y == n)) =
          l.filter (fun y => !((acc ++ [n]).contains y)) := by
        rw [List.filter_filter]
        refine List.filter_congr (fun y hy => ?_)
        rw [containsAppendSingle]
        cases hx : acc.contains y <;> cases hy2 : (y == n) <;>
          simp [hx, hy2]
      rw [hff, List.append_assoc, List.singleton_append]

/-- The vmapped axes are collected in first-seen order: the collection
equals first-occurrence deduplication of the non-marked axis names in
traversal order over the flattened input expressions. -/
theorem collectVmapped_eq_dedupFirst (roots : List (List FlatAxis)) :
    collectVmapped roots = dedupFirst (allUnmarkedNames roots) := by
  unfold collectVmapped
  rw [collect_foldl_join, foldl_axisStep_names, foldl_nameStep_dedup]
  unfold allUnmarkedNames
  simp

/-- `buildVmaps` produces exactly one wrap per vmapped axis. -/
theorem buildVmaps_length (a2v : Option String → Nat) :
    ∀ (vs : List (Option String)) ni no ws,
    buildVmaps a2v vs ni no = .ok ws → ws.length = vs.length := by
  intro vs
  induction vs with
  | nil =>
    intro ni no ws h
    simp only [buildVmaps, Except.ok.injEq] at h
    rw [← h]
    rfl
  | cons v vs ih =>
    intro ni no ws h
    unfold buildVmaps at h
    by_cases hany : (no.map (fun ns => ns.findIdx? (fun y => y == v))).any
        (fun o => o.isNone)
    · rw [if_pos hany] at h; exact Except.noConfusion h
    · rw [if_neg hany] at h
      cases hb : buildVmaps a2v vs (ni.map (fun ns => ns.erase v))
          (no.map (fun ns => ns.erase v)) with
      | error e => simp only [hb] at h; exact Except.noConfusion h
      | ok ws2 =>
        simp only [hb, Except.ok.injEq] at h
        rw [← h]
        simp [ih _ _ _ hb]

/-- Structure of one successful `buildVmaps` step: the head wrap records,
per input and per output, the index of the vmapped axis in the current name
lists (`none` when absent), and the tail is built with the processed axis
removed from every list. -/
theorem buildVmaps_cons_ok (a2v : Option String → Nat) (v : Option String)
    (vs : List (Option String)) (ni no : List (List (Option String)))
    (w : VmapSpec) (ws2 : List VmapSpec)
    (h : buildVmaps a2v (v :: vs) ni no = .ok (w :: ws2)) :
    w.inAxes = ni.map (fun ns => ns.findIdx? (fun y => y == v)) ∧
    w.outAxes = no.map (fun ns => ns.findIdx? (fun y => y == v)) ∧
    buildVmaps a2v vs (ni.map (fun ns => ns.erase v))
      (no.map (fun ns => ns.erase v)) = .ok ws2 := by
  unfold buildVmaps at h
  by_cases hany : (no.map (fun ns => ns.findIdx? (fun y => y == v))).any
      (fun o => o.isNone)
  · rw [if_pos hany] at h; exact Except.noConfusion h
  · rw [if_neg hany] at h
    cases hb : buildVmaps a2v vs (ni.map (fun ns => ns.erase v))
        (no.map (fun ns => ns.erase v)) with
    | error e => simp only [hb] at h; exact Except.noConfusion h
    | ok ws3 =>
      simp only [hb, Except.ok.injEq, List.cons.injEq] at h
      obtain ⟨hw, hws⟩ := h
      subst hws
      exact ⟨by rw [← hw], by rw [← hw], rfl⟩

/-- C7: the vmap compiler builds exactly one vectorizing wrap per vmapped
axis; the axes are collected in first-seen order over the flattened input
expressions; each wrap records per input and per output the axis index to
vectorize over (or `none` when absent), with previously processed axes
removed from the lists; and the wraps are composed in reversed collection
order, so the first-collected axis's wrap is outermost. -/
theorem claim_C7 :
    (∀ roots, collectVmapped roots = dedupFirst (allUnmarkedNames roots)) ∧
    (∀ a2v vs ni no ws, buildVmaps a2v vs ni no = .ok ws →
      ws.length = vs.length) ∧
    (∀ a2v v vs ni no w ws2, buildVmaps a2v (v :: vs) ni no = .ok (w :: ws2) →
      w.inAxes = ni.map (fun ns => ns.findIdx? (fun y => y == v)) ∧
      w.outAxes = no.map (fun ns => ns.findIdx? (fun y => y == v)) ∧
      buildVmaps a2v vs (ni.map (fun ns => ns.erase v))
        (no.map (fun ns => ns.erase v)) = .ok ws2) ∧
    (∀ f w ws ts, composeVmaps f (w :: ws) ts =
      backendVmap (composeVmaps f ws) w.inAxes w.outAxes ts) :=
  ⟨collectVmapped_eq_dedupFirst, buildVmaps_length, buildVmaps_cons_ok,
    composeVmaps_cons⟩

/-- C10: an output axis is classified (and later synthesized by
transpose/broadcast) as a broadcast axis iff it is not marked and its name
appears in no flattened input expression; a marked output axis is never
treated as a broadcast axis, even when absent from every input. -/
theorem claim_C10 (rootsInFlat rootsOutFlat : List (List FlatAxis)) :
    rootsOutWB rootsInFlat rootsOutFlat =
      rootsOutFlat.map (fun r => r.filter
        (fun a => a.marked || (namesInAll rootsInFlat).contains a.name)) ∧
    (∀ a : FlatAxis, isBroadcastAxis (namesInAll rootsInFlat) a = true ↔
      (a.marked = false ∧ (namesInAll rootsInFlat).contains a.name = false)) ∧
    (∀ a : FlatAxis, a.marked = true →
      isBroadcastAxis (namesInAll rootsInFlat) a = false) := by
  refine ⟨?_, ?_, ?_⟩
  · unfold rootsOutWB
    refine List.map_congr_left (fun r _ => ?_)
    refine List.filter_congr (fun a _ => ?_)
    unfold isBroadcastAxis
    cases hm : a.marked <;>
      cases hc : (namesInAll rootsInFlat).contains a.name <;> simp [hm, hc]
  · intro a
    unfold isBroadcastAxis
    cases hm : a.marked <;>
      cases hc : (namesInAll rootsInFlat).contains a.name <;> simp [hm, hc]
  · intro a hm
    unfold isBroadcastAxis
    rw [hm]
    simp

/- ## Concrete witnesses -/

/-- Input expressions of the C3 witness: `"a [b]"`. -/
def c3In : List (List SExpr) := [[.axis (some "a") 2, .marker (.axis (some "b") 3)]]

/-- Output expressions of the C3 witness: `"[c]"` — the vmapped axis `a` is
absent. -/
def c3Out : List (List SExpr) := [[.marker (.axis (some "c") 4)]]

/-- Input tensors of the C3 witness. -/
def c3Ts : List Tensor := [⟨[2, 3], fun _ => 0⟩]

theorem claim_C3_witness :
    ∃ nm, ∀ userOp, vmapStage3 c3In c3Ts c3Out userOp =
      .error (.axisUsage nm) :=
  claim_C3 c3In c3Ts c3Out
    [[⟨some "a", 2, false⟩, ⟨some "b", 3, true⟩]] [[⟨some "c", 4, true⟩]]
    ⟨some "a", 2, false⟩ [⟨some "a", 2, false⟩, ⟨some "b", 3, true⟩]
    (by decide) (by rfl) (by rfl) (by decide) (by decide) (by decide)
    (Or.inl ⟨[⟨some "c", 4, true⟩], by decide, by decide⟩)

/-- Input expressions of the C4/C9 witnesses: `"a [b]"` and `"[b]"`. -/
def c4In : List (List SExpr) := [[.axis (some "a") 2, .marker (.axis (some "b") 3)]]

/-- Output expressions of the C4 witness: `"a [c]"`. -/
def c4Out : List (List SExpr) := [[.axis (some "a") 2, .marker (.axis (some "c") 4)]]

/-- Input tensors of the C4 witness. -/
def c4Ts : List Tensor := [⟨[2, 3], fun _ => 0⟩]

/-- A wrapped function honouring the declared marked output shape `(4,)`. -/
def c4Good : List Tensor → List Tensor := fun _ => [⟨[4], fun _ => 7⟩]

/-- A wrapped function returning shape `(5,)` instead of the declared
`(4,)`. -/
def c4Bad : List Tensor → List Tensor := fun _ => [⟨[5], fun _ => 7⟩]

/-- The successful result of the C4 witness pipeline with the good
function. -/
def c4Res : List Tensor :=
  match vmapStage3 c4In c4Ts c4Out c4Good with
  | .ok r => r
  | .error _ => []

theorem claim_C4_witness :
    ∃ e, vmapStage3 c4In c4Ts c4Out c4Bad = .error e ∧
      isBackendContract e = true :=
  claim_C4 c4In c4Ts c4Out c4Good c4Bad c4Res (by rfl)
    (fun _ => Or.inr ⟨(⟨[5], fun _ => 7⟩, [.axis (some "c") 4]),
      List.mem_singleton.mpr rfl, by decide⟩)

/-- Expressions of the C9 witness: every input axis marked, `"[b] -> [b]"`. -/
def c9In : List (List SExpr) := [[.marker (.axis (some "b") 3)]]

/-- Output expressions of the C9 witness. -/
def c9Out : List (List SExpr) := [[.marker (.axis (some "b") 3)]]

/-- Input tensors of the C9 witness. -/
def c9Ts : List Tensor := [⟨[3], fun _ => 0⟩]

theorem claim_C9_witness :
    vmapStage3 c9In c9Ts c9Out (fun ts => ts) = .error .noVmappedAxes :=
  claim_C9 c9In c9Ts c9Out [[⟨some "b", 3, true⟩]] [[⟨some "b", 3, true⟩]]
    (by decide) (by rfl) (by rfl) (by decide) (fun ts => ts)

/-- Flattened input expressions of the C7 witness, with a repeated
unmarked name. -/
def c7Roots : List (List FlatAxis) :=
  [[⟨some "a", 2, false⟩, ⟨some "b", 3, true⟩],
   [⟨some "c", 4, false⟩, ⟨some "a", 2, false⟩]]

/-- Vmapped axes of the C7 witness. -/
def c7Vs : List (Option String) := [some "a", some "c"]

/-- Per-input name lists of the C7 witness. -/
def c7Ni : List (List (Option String)) :=
  [[some "a", some "b"], [some "c", some "a"]]

/-- Per-output name lists of the C7 witness. -/
def c7No : List (List (Option String)) := [[some "a", some "c"]]

/-- Axis sizes of the C7 witness. -/
def c7A2v : Option String → Nat := fun _ => 2

/-- The wraps built for the C7 witness. -/
def c7WsAll : List VmapSpec :=
  match buildVmaps c7A2v c7Vs c7Ni c7No with
  | .ok ws => ws
  | .error _ => []

/-- Head wrap of the C7 witness. -/
def c7W : VmapSpec := c7WsAll.headD ⟨[], [], []⟩

/-- Remaining wraps of the C7 witness. -/
def c7Ws2 : List VmapSpec := c7WsAll.tail

theorem claim_C7_witness :
    (collectVmapped c7Roots = dedupFirst (allUnmarkedNames c7Roots)) ∧
    c7WsAll.length = c7Vs.length ∧
    (c7W.inAxes = c7Ni.map (fun ns => ns.findIdx? (fun y => y == some "a")) ∧
      c7W.outAxes = c7No.map (fun ns => ns.findIdx? (fun y => y == some "a")) ∧
      buildVmaps c7A2v [some "c"] (c7Ni.map (fun ns => ns.erase (some "a")))
        (c7No.map (fun ns => ns.erase (some "a"))) = .ok c7Ws2) ∧
    (composeVmaps (fun ts => .ok ts) (c7W :: c7Ws2) [] =
      backendVmap (composeVmaps (fun ts => .ok ts) c7Ws2)
        c7W.inAxes c7W.outAxes []) :=
  ⟨claim_C7.1 c7Roots,
   claim_C7.2.1 c7A2v c7Vs c7Ni c7No c7WsAll (by rfl),
   claim_C7.2.2.1 c7A2v (some "a") [some "c"] c7Ni c7No c7W c7Ws2 (by rfl),
   claim_C7.2.2.2 (fun ts => .ok ts) c7W c7Ws2 []⟩

/-- Concrete description string of the C8 witness: two separators. -/
def c8Str : List Char := "a b->b a->c".toList

theorem claim_C8_witness :
    (isOkExcept (arangeParseCheck c8Str) =
      (decide ((splitArrow c8Str).length ≤ 2) &&
        !(((splitArrow c8Str).getD 0 []).contains ',') &&
        !(decide ((splitArrow c8Str).length = 2) &&
          ((splitArrow c8Str).getD 1 []).contains ','))) ∧
    (isOkExcept (vmapParseCheck c8Str) =
      decide ((splitArrow c8Str).length = 2)) :=
  claim_C8 c8Str

/-- Flattened input expressions of the C10 witness. -/
def c10In : List (List FlatAxis) := [[⟨some "a", 2, false⟩]]

/-- Flattened output expressions of the C10 witness: a broadcast axis `z`
and a marked axis `m` absent from the input. -/
def c10Out : List (List FlatAxis) :=
  [[⟨some "a", 2, false⟩, ⟨some "z", 5, false⟩, ⟨some "m", 3, true⟩]]

/-- The broadcast axis of the C10 witness. -/
def c10Z : FlatAxis := ⟨some "z", 5, false⟩

/-- The marked axis of the C10 witness, absent from every input. -/
def c10M : FlatAxis := ⟨some "m", 3, true⟩

theorem claim_C10_witness :
    (rootsOutWB c10In c10Out = c10Out.map (fun r => r.filter
      (fun a => a.marked || (namesInAll c10In).contains a.name))) ∧
    (isBroadcastAxis (namesInAll c10In) c10Z = true ↔
      (c10Z.marked = false ∧ (namesInAll c10In).contains c10Z.name = false)) ∧
    isBroadcastAxis (namesInAll c10In) c10M = false :=
  ⟨(claim_C10 c10In c10Out).1,
   (claim_C10 c10In c10Out).2.1 c10Z,
   (claim_C10 c10In c10Out).2.2 c10M (by rfl)⟩

end Einx
